import Mathlib

/-!
Shallow embedding of the DataMorph data-format converter.

The embedding covers:
* the JSON value model used throughout the extension,
* the YAML rule engine of `src/transformations.ts`
  (`applyYamlTransformations`, `applyFilterRule`, `applyMappingRule`,
  `applyCalculationRule`),
* the CSV/JSON codec of `src/utils.ts` (`jsonToCsv`, `csvToJson`) together
  with a character-level model of the CSV emission and parsing performed by
  the `csv-stringify` and `papaparse` libraries, following the behaviour the
  specification ascribes to them,
* the JSON-to-Excel dispatch of `src/utils.ts` (`jsonToExcel`),
* the per-unit skip/convert/fail classification of the batch loop in
  `src/batchConversion.ts` (`convertFiles`).

JavaScript dynamic evaluation (`new Function('data', ...)`) is modelled by an
abstract compilation environment `EvalEnv`: compiling an expression either
fails (a syntax error) or yields a function from the `data` binding to a
result or a thrown error.
-/

set_option maxHeartbeats 1000000

namespace DataMorph

/-- JSON values: the in-memory data model of every conversion. -/
inductive Json where
  | null : Json
  | bool : Bool → Json
  | num : Int → Json
  | str : String → Json
  | arr : List Json → Json
  | obj : List (String × Json) → Json

/-- First-match lookup of a field in a JavaScript object (`o[k]`). -/
def getKey (fs : List (String × Json)) (k : String) : Option Json :=
  (fs.find? (fun p => p.1 == k)).map (fun p => p.2)

/-- Key-presence test (`k in o`). -/
def hasKey (fs : List (String × Json)) (k : String) : Bool :=
  fs.any (fun p => p.1 == k)

/-- JavaScript property assignment `o[k] = v`: an existing key is updated in
place, a new key is appended at the end. -/
def setKey (fs : List (String × Json)) (k : String) (v : Json) : List (String × Json) :=
  if hasKey fs k then fs.map (fun p => if p.1 == k then (k, v) else p)
  else fs ++ [(k, v)]

/-- Object spread `\x7b...x\x7d`: objects keep their fields, arrays and strings
spread to index-keyed fields, primitives spread to the empty object. -/
def jsSpread : Json → List (String × Json)
  | .obj fs => fs
  | .arr xs => xs.enum.map (fun p => (toString p.1, p.2))
  | .str s => s.data.enum.map (fun p => (toString p.1, .str (String.mk [p.2])))
  | _ => []

/-- JavaScript truthiness of a value. -/
def truthy : Json → Bool
  | .null => false
  | .bool b => b
  | .num n => n != 0
  | .str s => s != ""
  | .arr _ => true
  | .obj _ => true

/-- `Array.isArray`. -/
def jsIsArray : Json → Bool
  | .arr _ => true
  | _ => false

/-- Scalar (non-nested) values: strings, numbers, booleans, null. -/
def isScalar : Json → Bool
  | .obj _ => false
  | .arr _ => false
  | _ => true

/-- A compiled JavaScript expression: a function of the `data` binding that
either returns a value or throws (an error message). -/
def JsFun : Type := Json → Except String Json

/-- The dynamic-evaluation environment: `new Function('data', 'return e;')`
either throws a syntax error or yields a callable. -/
def EvalEnv : Type := String → Except String JsFun

/-- A transformation rule as declared in `src/transformations.ts`: a name, an
optional `enabled` flag and the three optional variant-defining keys. -/
structure Rule where
  name : String
  enabled : Option Bool := none
  condition : Option String := none
  mapping : Option (List (String × String)) := none
  calculate : Option (String × String) := none

/-- A parsed YAML transformation document: either the `transformations` key is
missing or not an array, or it holds an ordered list of rules. -/
inductive YamlConfig where
  | invalid : YamlConfig
  | valid : List Rule → YamlConfig

/-- `data.filter(item => filterFn(item))`: evaluates the compiled condition on
each element in order; a thrown error aborts the traversal. -/
def filterEval (f : JsFun) : List Json → Except String (List Json)
  | [] => .ok []
  | x :: xs =>
    match f x with
    | .error e => .error e
    | .ok v =>
      match filterEval f xs with
      | .error e => .error e
      | .ok rest => .ok (if truthy v then x :: rest else rest)

/-- `applyFilterRule` from `src/transformations.ts`: on an array the condition
is compiled and each element kept iff the result is truthy; any thrown error
is wrapped; non-array data is returned unchanged without compiling. -/
def applyFilterRule (E : EvalEnv) (data : Json) (condition : String) : Except String Json :=
  match data with
  | .arr items =>
    match E condition with
    | .error e => .error ("Failed to apply filter rule: " ++ e)
    | .ok f =>
      match filterEval f items with
      | .error e => .error ("Failed to apply filter rule: " ++ e)
      | .ok kept => .ok (.arr kept)
  | d => .ok d

/-- The per-record body of `applyMappingRule`: for each mapping entry in
order, if the old field is present in the (already extended) record, the new
field is set to its value; the old field is kept. -/
def mapFields (mapping : List (String × String)) (fs : List (String × Json)) :
    List (String × Json) :=
  mapping.foldl
    (fun acc p =>
      match getKey acc p.2 with
      | some v => setKey acc p.1 v
      | none => acc)
    fs

/-- `applyMappingRule` from `src/transformations.ts`.  The `try/catch` in the
source cannot fire on plain JSON data (spread, `in` and property assignment on
objects do not throw), so the embedding is total. -/
def applyMappingRule (data : Json) (mapping : List (String × String)) : Json :=
  match data with
  | .arr items => .arr (items.map (fun it => .obj (mapFields mapping (jsSpread it))))
  | .obj fs => .obj (mapFields mapping fs)
  | d => d

/-- `data.map(item => ...)` of `applyCalculationRule`: each element is spread
into a fresh object, the compiled expression is evaluated on that copy and the
result stored under the calculated field; a thrown error aborts. -/
def calcEval (f : JsFun) (fld : String) : List Json → Except String (List Json)
  | [] => .ok []
  | x :: xs =>
    match f (.obj (jsSpread x)) with
    | .error e => .error e
    | .ok v =>
      match calcEval f fld xs with
      | .error e => .error e
      | .ok rest => .ok (.obj (setKey (jsSpread x) fld v) :: rest)

/-- `applyCalculationRule` from `src/transformations.ts`: the expression is
compiled once (before the array check), then evaluated per record; compile and
evaluation errors are wrapped alike by the surrounding `try/catch`. -/
def applyCalculationRule (E : EvalEnv) (data : Json) (fld expression : String) :
    Except String Json :=
  match E expression with
  | .error e => .error ("Failed to apply calculation rule: " ++ e)
  | .ok f =>
    match data with
    | .arr items =>
      match calcEval f fld items with
      | .error e => .error ("Failed to apply calculation rule: " ++ e)
      | .ok out => .ok (.arr out)
    | .obj fs =>
      match f (.obj fs) with
      | .error e => .error ("Failed to apply calculation rule: " ++ e)
      | .ok v => .ok (.obj (setKey fs fld v))
    | d => .ok d

/-- Rule dispatch of the loop body in `applyYamlTransformations`: the
`condition` key takes precedence over `mapping`, which takes precedence over
`calculate`; a rule with none of the three keys is inert. -/
def dispatchRule (E : EvalEnv) (r : Rule) (d : Json) : Except String Json :=
  match r.condition with
  | some c => applyFilterRule E d c
  | none =>
    match r.mapping with
    | some m => .ok (applyMappingRule d m)
    | none =>
      match r.calculate with
      | some ce => applyCalculationRule E d ce.1 ce.2
      | none => .ok d

/-- The fold of `applyYamlTransformations` over the rule list: rules whose
`enabled` flag equals `false` are skipped, each remaining rule receives the
cumulative result, a thrown error aborts the fold. -/
def applyRules (E : EvalEnv) : List Rule → Json → Except String Json
  | [], d => .ok d
  | r :: rs, d =>
    if r.enabled == some false then applyRules E rs d
    else
      match dispatchRule E r d with
      | .ok d2 => applyRules E rs d2
      | .error e => .error e

/-- `applyYamlTransformations` from `src/transformations.ts`, applied to the
already-parsed YAML document: a missing or non-array `transformations` key
fails before any rule runs, and every error thrown inside is wrapped by the
outer `catch`. -/
def applyYamlTransformations (E : EvalEnv) (cfg : YamlConfig) (data : Json) :
    Except String Json :=
  match cfg with
  | .invalid =>
      .error ("Failed to apply YAML transformations: " ++
        "Invalid YAML transformation file: missing or invalid transformations array")
  | .valid rules =>
    match applyRules E rules data with
    | .ok r => .ok r
    | .error e => .error ("Failed to apply YAML transformations: " ++ e)

/-- The expression texts a rule can hand to the evaluator. -/
def ruleExprs (r : Rule) : List String :=
  (match r.condition with | some c => [c] | none => []) ++
  (match r.calculate with | some ce => [ce.2] | none => [])

/-! ### `src/utils.ts`: JSON serialization and the structural flattener -/

/-- `JSON.stringify` escaping of one string character (the escapes relevant to
this data; other control characters are carried through unescaped). -/
def escapeJsonChar (c : Char) : List Char :=
  if c = '"' then ['\\', '"']
  else if c = '\\' then ['\\', '\\']
  else if c = '\n' then ['\\', 'n']
  else if c = '\r' then ['\\', 'r']
  else if c = '\t' then ['\\', 't']
  else [c]

/-- A JSON string literal, as a character list. -/
def jsonStringLit (s : String) : List Char :=
  '"' :: s.data.foldr (fun c acc => escapeJsonChar c ++ acc) ['"']

mutual

/-- `JSON.stringify` of a value, as a character list. -/
def jsonStringify : Json → List Char
  | .null => "null".data
  | .bool b => (if b then "true" else "false").data
  | .num n => (toString n).data
  | .str s => jsonStringLit s
  | .arr xs => '[' :: jsonStringifyList xs ++ [']']
  | .obj fs => '\x7b' :: jsonStringifyFields fs ++ ['\x7d']

/-- Comma-separated stringification of array elements. -/
def jsonStringifyList : List Json → List Char
  | [] => []
  | [x] => jsonStringify x
  | x :: xs => jsonStringify x ++ ',' :: jsonStringifyList xs

/-- Comma-separated stringification of object fields. -/
def jsonStringifyFields : List (String × Json) → List Char
  | [] => []
  | [p] => jsonStringLit p.1 ++ ':' :: jsonStringify p.2
  | p :: ps => jsonStringLit p.1 ++ ':' :: jsonStringify p.2 ++ ',' :: jsonStringifyFields ps

end

/-- The entries `Object.keys`/`Object.entries` sees on an array element:
objects expose their fields, arrays their index-keyed elements (in JavaScript
`typeof [] === 'object'`), anything else — primitives and null — exposes
nothing. -/
def objEntries : Json → Option (List (String × Json))
  | .obj fs => some fs
  | .arr xs => some (xs.enum.map (fun p => (toString p.1, p.2)))
  | _ => none

/-- The global column union of `jsonToCsv`: every object-typed element of the
array contributes its keys, first-seen order, computed by scanning the whole
array before any record is emitted. -/
def allKeysOf (items : List Json) : List String :=
  items.foldl
    (fun acc it =>
      match objEntries it with
      | some fs => fs.foldl (fun a p => if a.contains p.1 then a else a ++ [p.1]) acc
      | none => acc)
    []

/-- A cell value after flattening: nested objects and arrays are serialized to
their JSON text, scalars are kept. -/
def cellJson (v : Json) : Json :=
  match v with
  | .obj _ => .str (String.mk (jsonStringify v))
  | .arr _ => .str (String.mk (jsonStringify v))
  | v => v

/-- One record of the structural flattener in `jsonToCsv`: the record is
initialized with every union column set to the empty string, then the
element's own entries are copied (nested values serialized); elements without
object entries contribute nothing beyond the initialization. -/
def flattenItem (ks : List String) (item : Json) : List (String × Json) :=
  let init := ks.map (fun k => (k, Json.str ""))
  match objEntries item with
  | some fs => fs.foldl (fun acc p => setKey acc p.1 (cellJson p.2)) init
  | none => init

/-! ### The CSV text layer

`jsonToCsv` emits through `csv-stringify` and `csvToJson` parses through
`papaparse`; neither library is part of this repository.  Modelled from the
spec: the emitter writes a header row of the union keys then one row per
record, substituting the empty string for missing/null values and
JSON-stringifying nested values, quoting a cell only when it contains the
delimiter, a quote or a line break; the parser splits rows and fields
honouring quotes, fails on an unterminated quote, skips empty lines entirely,
treats the first row as field names, and per cell re-infers numbers and the
literal booleans when dynamic typing is on.  The delimiter is the default
comma throughout. -/

/-- Rendering of one cell value by the CSV emitter (`csv-stringify` casts):
strings verbatim, numbers by decimal notation, booleans as their literals,
null/missing as the empty string, nested values as JSON text. -/
def renderCellValue : Json → List Char
  | .null => []
  | .bool b => (if b then "true" else "false").data
  | .num n => (toString n).data
  | .str s => s.data
  | v => jsonStringify v

/-- Does a cell need quoting: it contains the delimiter, a quote or a line
break. -/
def needsQuote (cell : List Char) : Bool :=
  cell.any (fun c => c = ',' || c = '"' || c = '\n' || c = '\r')

/-- Quote-escaping inside a quoted cell: each quote is doubled. -/
def escQ : List Char → List Char
  | [] => []
  | c :: cs => if c = '"' then '"' :: '"' :: escQ cs else c :: escQ cs

/-- A rendered cell: quoted (with doubled inner quotes) when needed. -/
def renderCell (cell : List Char) : List Char :=
  if needsQuote cell then '"' :: (escQ cell ++ ['"']) else cell

/-- A rendered row: cells joined by the comma delimiter. -/
def joinCells : List (List Char) → List Char
  | [] => []
  | [c] => renderCell c
  | c :: cs => renderCell c ++ ',' :: joinCells cs

/-- A rendered document: each row terminated by a newline. -/
def renderDoc (rows : List (List (List Char))) : List Char :=
  rows.foldr (fun r acc => joinCells r ++ '\n' :: acc) []

/-- The four states of the CSV scanner: at the start of a field, inside an
unquoted field, inside a quoted field, and just after a quote inside a quoted
field. -/
inductive ScanMode where
  | fieldStart : ScanMode
  | unquoted : ScanMode
  | quoted : ScanMode
  | quoteEnd : ScanMode

/-- The CSV scanner: one pass over the characters, accumulating the current
cell, the current row and the finished rows (each reversed).  A quote opens a
quoted field only at field start; inside a quoted field a doubled quote is a
literal quote; an unterminated quote, or a stray character after a closing
quote, is a parse error.  At end of input the current cell and row are always
closed (a trailing empty row is skipped later with the other empty lines). -/
def scanCsv (mode : ScanMode) (cur : List Char) (row : List (List Char))
    (rows : List (List (List Char))) :
    List Char → Except String (List (List (List Char)))
  | [] =>
    match mode with
    | .quoted => .error "unterminated quoted field"
    | _ => .ok (((cur.reverse :: row).reverse :: rows).reverse)
  | c :: cs =>
    match mode with
    | .fieldStart =>
      if c = '"' then scanCsv .quoted cur row rows cs
      else if c = ',' then scanCsv .fieldStart [] (cur.reverse :: row) rows cs
      else if c = '\n' then
        scanCsv .fieldStart [] [] ((cur.reverse :: row).reverse :: rows) cs
      else scanCsv .unquoted (c :: cur) row rows cs
    | .unquoted =>
      if c = ',' then scanCsv .fieldStart [] (cur.reverse :: row) rows cs
      else if c = '\n' then
        scanCsv .fieldStart [] [] ((cur.reverse :: row).reverse :: rows) cs
      else scanCsv .unquoted (c :: cur) row rows cs
    | .quoted =>
      if c = '"' then scanCsv .quoteEnd cur row rows cs
      else scanCsv .quoted (c :: cur) row rows cs
    | .quoteEnd =>
      if c = '"' then scanCsv .quoted ('"' :: cur) row rows cs
      else if c = ',' then scanCsv .fieldStart [] (cur.reverse :: row) rows cs
      else if c = '\n' then
        scanCsv .fieldStart [] [] ((cur.reverse :: row).reverse :: rows) cs
      else .error "invalid character after closing quote"

/-- Parse a CSV text into its grid of raw cells. -/
def parseCsv (input : List Char) : Except String (List (List (List Char))) :=
  scanCsv .fieldStart [] [] [] input

/-- Leading and trailing whitespace removal. -/
def trimChars (l : List Char) : List Char :=
  ((l.dropWhile Char.isWhitespace).reverse.dropWhile Char.isWhitespace).reverse

/-- Is the token an integer numeral (optional sign, at least one digit)? -/
def isIntToken (l : List Char) : Bool :=
  match l with
  | [] => false
  | c :: cs =>
    if c = '-' then !cs.isEmpty && cs.all Char.isDigit
    else (c :: cs).all Char.isDigit

/-- Digit-string to number. -/
def digitsToNat (ds : List Char) : Nat :=
  ds.foldl (fun n c => n * 10 + (c.toNat - 48)) 0

/-- Numeral to integer. -/
def parseIntChars (l : List Char) : Int :=
  match l with
  | [] => 0
  | c :: cs => if c = '-' then -(digitsToNat cs : Int) else (digitsToNat (c :: cs) : Int)

/-- Dynamic typing of one parsed cell: when enabled, a token that is entirely
numeric after trimming becomes a number, the literal `true`/`false` become
booleans, anything else stays a string. -/
def inferCell (preserve : Bool) (cell : List Char) : Json :=
  if preserve then
    if isIntToken (trimChars cell) then .num (parseIntChars (trimChars cell))
    else if cell = ['t', 'r', 'u', 'e'] then .bool true
    else if cell = ['f', 'a', 'l', 's', 'e'] then .bool false
    else .str (String.mk cell)
  else .str (String.mk cell)

/-- A parsed row that came from an empty line: a single empty cell. -/
def isEmptyLine (r : List (List Char)) : Bool :=
  decide (r = [[]])

/-- Header-keyed records from the parsed grid: the first row names the fields,
each following row is zipped with it and dynamically typed. -/
def rowsToRecords (preserve : Bool) (rows : List (List (List Char))) : List Json :=
  match rows with
  | [] => []
  | header :: dataRows =>
    dataRows.map (fun row =>
      Json.obj ((header.zip row).map (fun p => (String.mk p.1, inferCell preserve p.2))))

/-- `csvToJson` from `src/utils.ts`: parse (rejecting with a wrapped message),
skip empty lines, use the first row as the header, dynamically type cells when
`preserveTypes` is on. -/
def csvToJson (preserve : Bool) (s : String) : Except String (List Json) :=
  match parseCsv s.data with
  | .error e => .error ("CSV parsing error: " ++ e)
  | .ok rows => .ok (rowsToRecords preserve (rows.filter (fun r => !isEmptyLine r)))

/-- The header row emitted for the union keys. -/
def headerCells (ks : List String) : List (List Char) :=
  ks.map (fun k => k.data)

/-- The row emitted for one flattened record: the union columns in order. -/
def rowCells (ks : List String) (flat : List (String × Json)) : List (List Char) :=
  ks.map (fun k => renderCellValue ((getKey flat k).getD (.str "")))

/-- The array branch of `jsonToCsv`: empty input yields the empty text,
otherwise the union keys are computed, every element flattened, and the grid
emitted with a header row. -/
def jsonToCsvCore (items : List Json) : List Char :=
  if items.isEmpty then []
  else
    let ks := allKeysOf items
    renderDoc (headerCells ks :: items.map (fun it => rowCells ks (flattenItem ks it)))

/-- `jsonToCsv` from `src/utils.ts` on the parsed JSON value: arrays are
flattened and emitted, a single object is lifted to a one-element array (the
source recurses through `JSON.stringify([jsonData])`; the embedding takes the
one unfolding step directly), anything else fails with the wrapped
invalid-structure message. -/
def jsonToCsv (j : Json) : Except String String :=
  match j with
  | .arr items => .ok (String.mk (jsonToCsvCore items))
  | .obj fs => .ok (String.mk (jsonToCsvCore [.obj fs]))
  | _ =>
      .error ("Failed to convert JSON to CSV: " ++
        "Invalid JSON structure. Expected an array of objects or a single object.")

/-- The canonical value a cell comes back as after one encode/decode trip:
missing keys render as the empty string, nested values as JSON text, and the
rendered text is re-inferred by dynamic typing. -/
def canonCell (v? : Option Json) : Json :=
  inferCell true (renderCellValue (match v? with | some v => cellJson v | none => .str ""))

/-- The record a CSV round trip returns for an input record: every union
column in first-seen order, each cell canonicalized. -/
def canonRecord (ks : List String) (rec : List (String × Json)) : List (String × Json) :=
  ks.map (fun k => (k, canonCell (getKey rec k)))

/-! ### `jsonToExcel` from `src/utils.ts`

The function takes a file path, reads and parses it, and builds a worksheet
from the array.  The single-object branch recurses with
`JSON.stringify([jsonData])` in the position of the *file path*.  File reading
is abstracted by an environment; the sheet content is modelled as the record
array handed to the workbook writer; the recursion is bounded by explicit
fuel (the source recursion is bounded by the same file reads). -/

def jsonToExcelGo (readFile : String → Except String Json) :
    Nat → String → Except String (List Json)
  | 0, _ => .error "Failed to convert JSON to Excel: recursion exhausted"
  | fuel + 1, pathArg =>
    match readFile pathArg with
    | .error e => .error ("Failed to convert JSON to Excel: " ++ e)
    | .ok (.arr xs) => .ok xs
    | .ok (.obj fs) =>
      match jsonToExcelGo readFile fuel (String.mk (jsonStringify (.arr [.obj fs]))) with
      | .error e => .error ("Failed to convert JSON to Excel: " ++ e)
      | .ok out => .ok out
    | .ok _ =>
        .error ("Failed to convert JSON to Excel: " ++
          "Invalid JSON structure. Expected an array of objects or a single object.")

/-! ### `src/batchConversion.ts`: the per-unit skip/convert/fail loop -/

/-- File kinds recognized by `detectFileType` and the target-format options. -/
inductive FileKind where
  | csv : FileKind
  | json : FileKind
  | excel : FileKind
  | unknown : FileKind

/-- One unit of the batch list. -/
structure FileInfo where
  filePath : String
  fileType : FileKind

/-- The options the batch loop consults. -/
structure ConversionOptions where
  targetFormat : FileKind
  overwriteFiles : Bool

/-- How a unit ends up classified by the loop. -/
inductive UnitOutcome where
  | converted : UnitOutcome
  | skipped : UnitOutcome
  | failed : UnitOutcome

instance : DecidableEq UnitOutcome := fun a b => by
  cases a <;> cases b <;> first | exact isTrue rfl | exact isFalse (by intro h; cases h)

/-- The already-in-target-format test of the loop: the literal three-way
disjunction of the source. -/
def isSameFormat (ft target : FileKind) : Bool :=
  (match ft, target with | .csv, .csv => true | _, _ => false) ||
  (match ft, target with | .json, .json => true | _, _ => false) ||
  (match ft, target with | .excel, .excel => true | _, _ => false)

/-- `getFileExtension`. -/
def extFor : FileKind → String
  | .csv => ".csv"
  | .json => ".json"
  | .excel => ".xlsx"
  | .unknown => ".txt"

/-- The case-insensitive trailing-extension strip of the output-path regex
(alternatives tried in the regex order). -/
def stripKnownExt (p : String) : Option String :=
  if p.toLower.endsWith ".csv" then some (p.dropRight 4)
  else if p.toLower.endsWith ".json" then some (p.dropRight 5)
  else if p.toLower.endsWith ".xlsx" then some (p.dropRight 5)
  else if p.toLower.endsWith ".xls" then some (p.dropRight 4)
  else none

/-- The derived output path: the recognized extension replaced by the target
extension; no recognized extension leaves the path unchanged (no regex
match). -/
def outputPathFor (opts : ConversionOptions) (f : FileInfo) : String :=
  match stripKnownExt f.filePath with
  | some base => base ++ extFor opts.targetFormat
  | none => f.filePath

/-- The classification of one unit by the loop body: same format is skipped
before anything runs; an existing output path with overwrite off is skipped
before conversion; otherwise the conversion runs and decides
converted/failed. -/
def unitOutcome (convert : FileInfo → Except String Unit) (pathExists : String → Bool)
    (opts : ConversionOptions) (f : FileInfo) : UnitOutcome :=
  if isSameFormat f.fileType opts.targetFormat then .skipped
  else if pathExists (outputPathFor opts f) && !opts.overwriteFiles then .skipped
  else
    match convert f with
    | .ok _ => .converted
    | .error _ => .failed

/-- The three counters of the loop. -/
structure BatchCounts where
  converted : Nat
  skipped : Nat
  failed : Nat

/-- Counter update for one unit. -/
def bumpCounts (c : BatchCounts) : UnitOutcome → BatchCounts
  | .converted => { c with converted := c.converted + 1 }
  | .skipped => { c with skipped := c.skipped + 1 }
  | .failed => { c with failed := c.failed + 1 }

/-- The tallies of an uninterrupted run over the unit list. -/
def runBatch (convert : FileInfo → Except String Unit) (pathExists : String → Bool)
    (opts : ConversionOptions) (files : List FileInfo) : BatchCounts :=
  files.foldl (fun c f => bumpCounts c (unitOutcome convert pathExists opts f)) ⟨0, 0, 0⟩

/-! ### Concrete environments and data used by the closed instances -/

/-- The identity callable: `return data;`. -/
def jsId : JsFun := fun d => .ok d

/-- A callable that computes `data.active === true`. -/
def jsActiveFn : JsFun := fun d =>
  .ok (.bool (match d with
    | .obj fs => match getKey fs "active" with
      | some (.bool true) => true
      | _ => false
    | _ => false))

/-- An environment offering the filter condition of the spec example and
rejecting everything else as a syntax error. -/
def evalActiveEnv : EvalEnv := fun s =>
  if s = "data.active === true" then .ok jsActiveFn else .error "SyntaxError"

/-- An environment that compiles `ok` to the identity and fails to compile
every other expression — a stand-in for a rule file whose disabled rule holds
an invalid expression. -/
def evalBadDisabled : EvalEnv := fun s =>
  if s = "ok" then .ok jsId else .error "SyntaxError: Unexpected token"

/-- An environment that compiles everything to the identity. -/
def evalAllOk : EvalEnv := fun _ => .ok jsId

/-- A callable that always throws. -/
def jsBoom : JsFun := fun _ => .error "boom"

/-- An environment whose every expression compiles to a throwing callable. -/
def evalBoomEnv : EvalEnv := fun _ => .ok jsBoom

/-- A file system with one JSON file holding a single object, as read by
`jsonToExcel`: every other path fails like `fs.readFileSync` does. -/
def readSingleObject : String → Except String Json := fun p =>
  if p = "data.json" then .ok (.obj [("a", .num 1)])
  else .error ("ENOENT: no such file or directory, open " ++ p)

/-- Whether the filter keeps a record: the compiled condition returned a
truthy value on it. -/
def keepCheck (f : JsFun) (x : Json) : Bool :=
  match f x with
  | .ok v => truthy v
  | .error _ => false

/-- The CSV round trip of C2: encode a JSON value to CSV text, decode it back
with type preservation on. -/
def csvRoundTrip (j : Json) : Except String (List Json) :=
  (jsonToCsv j).bind (csvToJson true)

/-! ## Helper lemmas: association-list operations -/

theorem getKey_append_of_none {fs gs : List (String × Json)} {k : String}
    (h : getKey fs k = none) : getKey (fs ++ gs) k = getKey gs k := by
  have hf : fs.find? (fun p => p.1 == k) = none := by
    unfold getKey at h
    cases hx : fs.find? (fun p => p.1 == k) with
    | none => rfl
    | some p => rw [hx] at h; simp at h
  unfold getKey
  rw [List.find?_append, hf, Option.none_or]

theorem hasKey_eq_false_iff {fs : List (String × Json)} {k : String} :
    hasKey fs k = false ↔ getKey fs k = none := by
  unfold hasKey getKey
  constructor
  · intro h
    rw [List.find?_eq_none.2]
    · rfl
    · intro p hp
      exact List.any_eq_false.1 h p hp
  · intro h
    rcases hf : fs.find? (fun p => p.1 == k) with _ | p
    · exact List.any_eq_false.2 (fun p hp hcon => by
        have := List.find?_eq_none.1 hf p hp
        simp_all)
    · rw [hf] at h; simp at h

theorem find?_map_update (fs : List (String × Json)) (k k' : String) (v : Json)
    (hne : k' ≠ k) :
    (fs.map (fun p => if p.1 == k then (k, v) else p)).find? (fun p => p.1 == k')
      = fs.find? (fun p => p.1 == k') := by
  induction fs with
  | nil => rfl
  | cons p ps ih =>
    rw [List.map_cons]
    by_cases hp : (p.1 == k) = true
    · rw [if_pos hp]
      have hk : p.1 = k := by simpa using hp
      have h1 : ((k, v).1 == k') = false := by
        simp only [beq_eq_false_iff_ne, ne_eq]
        exact fun hc => hne hc.symm
      have h2 : (p.1 == k') = false := by
        simp only [beq_eq_false_iff_ne, ne_eq, hk]
        exact fun hc => hne hc.symm
      simp only [List.find?_cons, h1, h2]
      exact ih
    · rw [if_neg hp]
      by_cases hq : (p.1 == k') = true
      · simp only [List.find?_cons, hq]
      · have hq' : (p.1 == k') = false := by simpa using hq
        simp only [List.find?_cons, hq']
        exact ih

theorem find?_map_update_self (fs : List (String × Json)) (k : String) (v : Json)
    (hin : hasKey fs k = true) :
    (fs.map (fun p => if p.1 == k then (k, v) else p)).find? (fun p => p.1 == k)
      = some (k, v) := by
  induction fs with
  | nil => simp [hasKey] at hin
  | cons p ps ih =>
    rw [List.map_cons]
    by_cases hp : (p.1 == k) = true
    · rw [if_pos hp]
      simp only [List.find?_cons, show ((k, v).1 == k) = true by simp]
    · rw [if_neg hp]
      have hp' : (p.1 == k) = false := by simpa using hp
      simp only [List.find?_cons, hp']
      apply ih
      unfold hasKey at hin ⊢
      simpa [hp'] using hin

theorem getKey_setKey_self (fs : List (String × Json)) (k : String) (v : Json) :
    getKey (setKey fs k v) k = some v := by
  unfold setKey
  by_cases h : hasKey fs k = true
  · rw [if_pos h]
    unfold getKey
    rw [find?_map_update_self fs k v h]
    rfl
  · rw [if_neg h]
    have hnone : getKey fs k = none := hasKey_eq_false_iff.1 (by simpa using h)
    rw [getKey_append_of_none hnone]
    unfold getKey
    simp only [List.find?_cons, show ((k, v).1 == k) = true by simp]
    rfl

theorem getKey_setKey_ne (fs : List (String × Json)) (k k' : String) (v : Json)
    (hne : k' ≠ k) : getKey (setKey fs k v) k' = getKey fs k' := by
  unfold setKey
  by_cases h : hasKey fs k = true
  · rw [if_pos h]
    unfold getKey
    rw [find?_map_update fs k k' v hne]
  · rw [if_neg h]
    unfold getKey
    rw [List.find?_append]
    have h1 : ¬((k, v).1 == k') = true := by
      simp only [beq_iff_eq]
      exact fun hc => hne hc.symm
    rw [show List.find? (fun p => p.1 == k') [(k, v)] = none by
      simp [List.find?_eq_none]; exact fun hc => hne hc.symm]
    rw [Option.or_none]

theorem hasKey_iff_mem {fs : List (String × Json)} {k : String} :
    hasKey fs k = true ↔ k ∈ fs.map Prod.fst := by
  unfold hasKey
  rw [List.any_eq_true]
  constructor
  · rintro ⟨p, hp, hpk⟩
    exact List.mem_map.2 ⟨p, hp, by simpa using hpk⟩
  · intro h
    rcases List.mem_map.1 h with ⟨p, hp, hpk⟩
    exact ⟨p, hp, by simp [hpk]⟩

theorem hasKey_setKey {fs : List (String × Json)} {k k' : String} {v : Json}
    (h : hasKey fs k' = true) : hasKey (setKey fs k v) k' = true := by
  unfold setKey
  by_cases hk : hasKey fs k = true
  · rw [if_pos hk]
    rcases List.any_eq_true.1 h with ⟨p, hp, hpk⟩
    apply List.any_eq_true.2
    by_cases hq : (p.1 == k) = true
    · refine ⟨(k, v), List.mem_map.2 ⟨p, hp, by rw [if_pos hq]⟩, ?_⟩
      have : p.1 = k := by simpa using hq
      rw [← this]
      exact hpk
    · exact ⟨p, List.mem_map.2 ⟨p, hp, by rw [if_neg hq]⟩, hpk⟩
  · rw [if_neg hk]
    unfold hasKey at h ⊢
    rw [List.any_append, h, Bool.true_or]

theorem getKey_eq_some_mem {fs : List (String × Json)} {k : String} {v : Json}
    (h : getKey fs k = some v) : (k, v) ∈ fs := by
  unfold getKey at h
  rcases hf : fs.find? (fun p => p.1 == k) with _ | p
  · rw [hf] at h; simp at h
  · rw [hf] at h
    have hp2 : p.2 = v := by simpa using h
    have hpk : p.1 = k := by simpa using List.find?_some hf
    have := List.mem_of_find?_eq_some hf
    rwa [show p = (k, v) by rw [← hpk, ← hp2]] at this

theorem getKey_foldl_setKey_of_not_mem {α : Type} (g : α → Json)
    (fs : List (String × α)) (k : String) (h : ∀ q ∈ fs, q.1 ≠ k) :
    ∀ init, getKey (fs.foldl (fun acc p => setKey acc p.1 (g p.2)) init) k = getKey init k := by
  induction fs with
  | nil => intro init; rfl
  | cons p ps ih =>
    intro init
    rw [List.foldl_cons]
    rw [ih (fun q hq => h q (List.mem_cons_of_mem p hq))]
    exact getKey_setKey_ne init p.1 k (g p.2) (fun hc => h p (List.mem_cons_self p ps) hc.symm)

theorem getKey_foldl_setKey_of_mem {α : Type} (g : α → Json)
    (fs : List (String × α)) (k : String) (v : α)
    (hnd : (fs.map Prod.fst).Nodup) (hmem : (k, v) ∈ fs) :
    ∀ init, getKey (fs.foldl (fun acc p => setKey acc p.1 (g p.2)) init) k = some (g v) := by
  induction fs with
  | nil => cases hmem
  | cons p ps ih =>
    intro init
    rw [List.map_cons, List.nodup_cons] at hnd
    rw [List.foldl_cons]
    rcases List.mem_cons.1 hmem with heq | hmem2
    · have hk : p.1 = k := by rw [← heq]
      have hnotin : ∀ q ∈ ps, q.1 ≠ k := by
        intro q hq hqk
        apply hnd.1
        rw [hk, ← hqk]
        exact List.mem_map_of_mem Prod.fst hq
      rw [getKey_foldl_setKey_of_not_mem g ps k hnotin, ← heq]
      exact getKey_setKey_self init k (g v)
    · exact ih hnd.2 hmem2 _

theorem getKey_init_mem {ks : List String} {k : String} (h : k ∈ ks) :
    getKey (ks.map (fun k => (k, Json.str ""))) k = some (.str "") := by
  induction ks with
  | nil => cases h
  | cons a as ih =>
    rw [List.map_cons]
    by_cases ha : (a == k) = true
    · unfold getKey
      simp only [List.find?_cons, ha]
      rfl
    · unfold getKey at ih ⊢
      simp only [List.find?_cons, show ((a, Json.str "").1 == k) = false by simpa using ha]
      exact ih (by
        rcases List.mem_cons.1 h with h1 | h2
        · exact absurd (by simp [h1]) ha
        · exact h2)

theorem setKey_keys_of_hasKey {fs : List (String × Json)} {k : String} {v : Json}
    (h : hasKey fs k = true) : (setKey fs k v).map Prod.fst = fs.map Prod.fst := by
  unfold setKey
  rw [if_pos h, List.map_map]
  apply List.map_congr_left
  intro p _
  show (if (p.1 == k) = true then (k, v) else p).1 = p.1
  by_cases hp : (p.1 == k) = true
  · rw [if_pos hp]
    exact (show p.1 = k by simpa using hp).symm
  · rw [if_neg hp]

theorem foldl_setKey_keys {α : Type} (g : α → Json) (fs : List (String × α)) :
    ∀ init : List (String × Json), (∀ p ∈ fs, hasKey init p.1 = true) →
      (fs.foldl (fun acc p => setKey acc p.1 (g p.2)) init).map Prod.fst = init.map Prod.fst := by
  induction fs with
  | nil => intro init _; rfl
  | cons p ps ih =>
    intro init hall
    rw [List.foldl_cons]
    have hp : hasKey init p.1 = true := hall p (List.mem_cons_self p ps)
    have hkeys := setKey_keys_of_hasKey (v := g p.2) hp
    rw [ih (setKey init p.1 (g p.2))
      (fun q hq => by
        rw [hasKey_iff_mem, hkeys, ← hasKey_iff_mem]
        exact hall q (List.mem_cons_of_mem p hq))]
    exact hkeys

theorem mem_inner_keys (fs : List (String × Json)) (p : String × Json) (hp : p ∈ fs) :
    ∀ acc, p.1 ∈ fs.foldl (fun a q => if a.contains q.1 then a else a ++ [q.1]) acc := by
  have hmono : ∀ (l : List (String × Json)) (acc : List String) (x : String), x ∈ acc →
      x ∈ l.foldl (fun a q => if a.contains q.1 then a else a ++ [q.1]) acc := by
    intro l
    induction l with
    | nil => intro acc x hx; exact hx
    | cons q qs ih =>
      intro acc x hx
      rw [List.foldl_cons]
      apply ih
      by_cases hc : acc.contains q.1
      · rwa [if_pos hc]
      · rw [if_neg hc]
        exact List.mem_append_left _ hx
  induction fs with
  | nil => cases hp
  | cons q qs ih =>
    intro acc
    rw [List.foldl_cons]
    rcases List.mem_cons.1 hp with heq | hmem
    · subst heq
      apply hmono
      by_cases hc : acc.contains p.1
      · rw [if_pos hc]
        exact List.elem_iff.1 hc
      · rw [if_neg hc]
        exact List.mem_append_right _ (List.mem_singleton.2 rfl)
    · exact ih hmem _

theorem mem_inner_keys_mono (m : List (String × Json)) :
    ∀ (a : List String) (x : String), x ∈ a →
      x ∈ m.foldl (fun a q => if a.contains q.1 then a else a ++ [q.1]) a := by
  induction m with
  | nil => intro a x ha; exact ha
  | cons q qs ih =>
    intro a x ha
    rw [List.foldl_cons]
    apply ih
    by_cases hc : a.contains q.1
    · rwa [if_pos hc]
    · rw [if_neg hc]; exact List.mem_append_left _ ha

theorem mem_allKeysOf {items : List Json} {it : Json} {fs : List (String × Json)}
    {p : String × Json} (hit : it ∈ items) (hent : objEntries it = some fs)
    (hp : p ∈ fs) : p.1 ∈ allKeysOf items := by
  unfold allKeysOf
  have haux : ∀ (l : List Json) (acc : List String), it ∈ l →
      p.1 ∈ l.foldl
        (fun acc jt =>
          match objEntries jt with
          | some gs => gs.foldl (fun a q => if a.contains q.1 then a else a ++ [q.1]) acc
          | none => acc) acc := by
    intro l
    induction l with
    | nil => intro acc h; cases h
    | cons jt jts ih =>
      intro acc h
      rw [List.foldl_cons]
      rcases List.mem_cons.1 h with heq | hmem
      · subst heq
        have hmono : ∀ (l2 : List Json) (acc2 : List String), p.1 ∈ acc2 →
            p.1 ∈ l2.foldl
              (fun acc jt =>
                match objEntries jt with
                | some gs => gs.foldl (fun a q => if a.contains q.1 then a else a ++ [q.1]) acc
                | none => acc) acc2 := by
          intro l2
          induction l2 with
          | nil => intro acc2 hx; exact hx
          | cons kt kts ih2 =>
            intro acc2 hx
            rw [List.foldl_cons]
            apply ih2
            cases objEntries kt with
            | some gs => exact mem_inner_keys_mono gs acc2 p.1 hx
            | none => exact hx
        apply hmono
        rw [hent]
        exact mem_inner_keys fs p hp acc
      · exact ih _ hmem
  exact haux items [] hit

/-! ## The CSV scanner on rendered documents (used by C2) -/

/-- Scanning an unquoted cell's characters accumulates them onto the current
cell. -/
theorem scan_unquoted (cell : List Char) (h : ∀ c ∈ cell, c ≠ ',' ∧ c ≠ '\n') :
    ∀ (cur : List Char) (row : List (List Char)) (rows : List (List (List Char)))
      (rest : List Char),
      scanCsv .unquoted cur row rows (cell ++ rest)
        = scanCsv .unquoted (cell.reverse ++ cur) row rows rest := by
  induction cell with
  | nil => intro cur row rows rest; rfl
  | cons c cs ih =>
    intro cur row rows rest
    have hc := h c (List.mem_cons_self c cs)
    rw [List.cons_append]
    show (if c = ',' then _ else if c = '\n' then _
          else scanCsv .unquoted (c :: cur) row rows (cs ++ rest)) = _
    rw [if_neg hc.1, if_neg hc.2,
      ih (fun x hx => h x (List.mem_cons_of_mem c hx)) (c :: cur) row rows rest,
      List.reverse_cons, List.append_assoc, List.singleton_append]

/-- Scanning the quote-escaped characters of a cell inside a quoted field
accumulates the unescaped characters, stopping at the closing quote. -/
theorem scan_quoted_escape (cell : List Char) :
    ∀ (cur : List Char) (row : List (List Char)) (rows : List (List (List Char)))
      (rest : List Char),
      scanCsv .quoted cur row rows (escQ cell ++ '"' :: rest)
        = scanCsv .quoteEnd (cell.reverse ++ cur) row rows rest := by
  induction cell with
  | nil => intro cur row rows rest; rfl
  | cons c cs ih =>
    intro cur row rows rest
    by_cases hc : c = '"'
    · subst hc
      show scanCsv .quoted cur row rows
          (('"' :: '"' :: escQ cs) ++ '"' :: rest) = _
      rw [List.cons_append, List.cons_append]
      show scanCsv .quoted ('"' :: cur) row rows (escQ cs ++ '"' :: rest) = _
      rw [ih ('"' :: cur) row rows rest, List.reverse_cons, List.append_assoc,
        List.singleton_append]
    · show scanCsv .quoted cur row rows
          ((if c = '"' then '"' :: '"' :: escQ cs else c :: escQ cs) ++ '"' :: rest) = _
      rw [if_neg hc, List.cons_append]
      show (if c = '"' then _ else scanCsv .quoted (c :: cur) row rows (escQ cs ++ '"' :: rest)) = _
      rw [if_neg hc, ih (c :: cur) row rows rest, List.reverse_cons,
        List.append_assoc, List.singleton_append]

/-- A rendered cell followed by a comma: the scanner closes the cell onto the
row and continues at the next field start. -/
theorem scan_cell_comma (cell : List Char) (row : List (List Char))
    (rows : List (List (List Char))) (rest : List Char) :
    scanCsv .fieldStart [] row rows (renderCell cell ++ ',' :: rest)
      = scanCsv .fieldStart [] (cell :: row) rows rest := by
  unfold renderCell
  by_cases hq : needsQuote cell = true
  · rw [if_pos hq, List.cons_append, List.append_assoc, List.singleton_append]
    show scanCsv .quoted [] row rows (escQ cell ++ '"' :: ',' :: rest) = _
    rw [scan_quoted_escape cell [] row rows (',' :: rest), List.append_nil]
    show scanCsv .fieldStart [] (cell.reverse.reverse :: row) rows rest = _
    rw [List.reverse_reverse]
  · rw [if_neg hq]
    have hq2 : cell.any (fun c => c = ',' || c = '"' || c = '\n' || c = '\r') = false := by
      unfold needsQuote at hq
      simpa using hq
    have hsafe : ∀ c ∈ cell, c ≠ ',' ∧ c ≠ '"' ∧ c ≠ '\n' := by
      intro c hc
      have := List.any_eq_false.1 hq2 c hc
      simp only [Bool.or_eq_true, decide_eq_true_eq, not_or] at this
      exact ⟨this.1.1.1, this.1.1.2, this.1.2⟩
    cases cell with
    | nil => rfl
    | cons c cs =>
      have hc := hsafe c (List.mem_cons_self c cs)
      rw [List.cons_append]
      show (if c = '"' then _ else if c = ',' then _ else if c = '\n' then _
            else scanCsv .unquoted [c] row rows (cs ++ ',' :: rest)) = _
      rw [if_neg hc.2.1, if_neg hc.1, if_neg hc.2.2]
      rw [scan_unquoted cs
        (fun x hx => ⟨(hsafe x (List.mem_cons_of_mem c hx)).1,
          (hsafe x (List.mem_cons_of_mem c hx)).2.2⟩) [c] row rows (',' :: rest)]
      show scanCsv .fieldStart [] ((cs.reverse ++ [c]).reverse :: row) rows rest = _
      rw [List.reverse_append, List.reverse_reverse]
      rfl

/-- A rendered cell followed by a newline: the scanner closes the cell and the
row and continues at the next row. -/
theorem scan_cell_newline (cell : List Char) (row : List (List Char))
    (rows : List (List (List Char))) (rest : List Char) :
    scanCsv .fieldStart [] row rows (renderCell cell ++ '\n' :: rest)
      = scanCsv .fieldStart [] [] ((cell :: row).reverse :: rows) rest := by
  unfold renderCell
  by_cases hq : needsQuote cell = true
  · rw [if_pos hq, List.cons_append, List.append_assoc, List.singleton_append]
    show scanCsv .quoted [] row rows (escQ cell ++ '"' :: '\n' :: rest) = _
    rw [scan_quoted_escape cell [] row rows ('\n' :: rest), List.append_nil]
    show scanCsv .fieldStart [] [] ((cell.reverse.reverse :: row).reverse :: rows) rest = _
    rw [List.reverse_reverse]
  · rw [if_neg hq]
    have hq2 : cell.any (fun c => c = ',' || c = '"' || c = '\n' || c = '\r') = false := by
      unfold needsQuote at hq
      simpa using hq
    have hsafe : ∀ c ∈ cell, c ≠ ',' ∧ c ≠ '"' ∧ c ≠ '\n' := by
      intro c hc
      have := List.any_eq_false.1 hq2 c hc
      simp only [Bool.or_eq_true, decide_eq_true_eq, not_or] at this
      exact ⟨this.1.1.1, this.1.1.2, this.1.2⟩
    cases cell with
    | nil => rfl
    | cons c cs =>
      have hc := hsafe c (List.mem_cons_self c cs)
      rw [List.cons_append]
      show (if c = '"' then _ else if c = ',' then _ else if c = '\n' then _
            else scanCsv .unquoted [c] row rows (cs ++ '\n' :: rest)) = _
      rw [if_neg hc.2.1, if_neg hc.1, if_neg hc.2.2]
      rw [scan_unquoted cs
        (fun x hx => ⟨(hsafe x (List.mem_cons_of_mem c hx)).1,
          (hsafe x (List.mem_cons_of_mem c hx)).2.2⟩) [c] row rows ('\n' :: rest)]
      show scanCsv .fieldStart [] [] (((cs.reverse ++ [c]).reverse :: row).reverse :: rows) rest = _
      rw [List.reverse_append, List.reverse_reverse]
      rfl

/-- A rendered row: the scanner accumulates exactly its cells and moves to the
next row. -/
theorem scan_row (cells : List (List Char)) (h : cells ≠ []) :
    ∀ (row : List (List Char)) (rows : List (List (List Char))) (rest : List Char),
      scanCsv .fieldStart [] row rows (joinCells cells ++ '\n' :: rest)
        = scanCsv .fieldStart [] [] ((row.reverse ++ cells) :: rows) rest := by
  induction cells with
  | nil => exact absurd rfl h
  | cons c cs ih =>
    intro row rows rest
    cases cs with
    | nil =>
      show scanCsv .fieldStart [] row rows (renderCell c ++ '\n' :: rest) = _
      rw [scan_cell_newline c row rows rest, List.reverse_cons]
    | cons c2 cs2 =>
      show scanCsv .fieldStart [] row rows
          ((renderCell c ++ ',' :: joinCells (c2 :: cs2)) ++ '\n' :: rest) = _
      rw [List.append_assoc, List.cons_append, scan_cell_comma c row rows _]
      rw [ih (List.cons_ne_nil c2 cs2) (c :: row) rows rest, List.reverse_cons,
        List.append_assoc, List.singleton_append]

/-- A rendered document of nonempty rows parses back to exactly those rows,
plus the one empty row the trailing newline leaves (removed later by the
empty-line skip). -/
theorem scan_doc (rowsL : List (List (List Char))) (h : ∀ r ∈ rowsL, r ≠ []) :
    ∀ rows, scanCsv .fieldStart [] [] rows (renderDoc rowsL)
      = .ok (rows.reverse ++ (rowsL ++ [[[]]])) := by
  induction rowsL with
  | nil =>
    intro rows
    show Except.ok (([[]] : List (List Char)) :: rows).reverse = _
    rw [List.reverse_cons]
    rfl
  | cons r rs ih =>
    intro rows
    show scanCsv .fieldStart [] [] rows (joinCells r ++ '\n' :: renderDoc rs) = _
    rw [scan_row r (h r (List.mem_cons_self r rs)) [] rows (renderDoc rs)]
    rw [List.reverse_nil, List.nil_append]
    rw [ih (fun q hq => h q (List.mem_cons_of_mem r hq)) (r :: rows)]
    rw [List.reverse_cons, List.append_assoc, List.singleton_append]
    rfl

theorem parseCsv_renderDoc (rowsL : List (List (List Char)))
    (h : ∀ r ∈ rowsL, r ≠ []) :
    parseCsv (renderDoc rowsL) = .ok (rowsL ++ [[[]]]) := by
  unfold parseCsv
  rw [scan_doc rowsL h [], List.reverse_nil, List.nil_append]

/-- Decoding the rendered document of nonempty, non-empty-line rows yields its
header-keyed records: the trailing empty row and nothing else is skipped. -/
theorem csvToJson_renderDoc (rowsL : List (List (List Char)))
    (h : ∀ r ∈ rowsL, r ≠ []) (h2 : ∀ r ∈ rowsL, r ≠ [[]]) :
    csvToJson true (String.mk (renderDoc rowsL)) = .ok (rowsToRecords true rowsL) := by
  unfold csvToJson
  rw [show (String.mk (renderDoc rowsL)).data = renderDoc rowsL from rfl]
  rw [parseCsv_renderDoc rowsL h]
  show Except.ok (rowsToRecords true
      (List.filter (fun r => !isEmptyLine r) (rowsL ++ [[[]]]))) = _
  rw [List.filter_append]
  rw [List.filter_eq_self.2 (fun r hr => by
    unfold isEmptyLine
    simp only [Bool.not_eq_true']
    exact decide_eq_false (h2 r hr))]
  rw [show List.filter (fun r => !isEmptyLine r) [[[]]] = [] from rfl]
  rw [List.append_nil]

/-! ## C2: the CSV/JSON round trip -/

theorem keys_init (ks : List String) :
    (ks.map (fun k => (k, Json.str ""))).map Prod.fst = ks := by
  induction ks with
  | nil => rfl
  | cons a as ih => rw [List.map_cons, List.map_cons, ih]

theorem flattenItem_entries (ks : List String) (fs : List (String × Json)) (it : Json)
    (h : objEntries it = some fs) :
    flattenItem ks it
      = fs.foldl (fun acc p => setKey acc p.1 (cellJson p.2))
          (ks.map (fun k => (k, Json.str ""))) := by
  unfold flattenItem
  simp only [h]

theorem flattenItem_none (ks : List String) (it : Json) (h : objEntries it = none) :
    flattenItem ks it = ks.map (fun k => (k, Json.str "")) := by
  unfold flattenItem
  simp only [h]


theorem jsonToCsvCore_ne (items : List Json) (h : items ≠ []) :
    jsonToCsvCore items
      = renderDoc (headerCells (allKeysOf items) ::
          items.map (fun it =>
            rowCells (allKeysOf items) (flattenItem (allKeysOf items) it))) := by
  unfold jsonToCsvCore
  rw [if_neg (fun hc => h (List.isEmpty_iff.1 hc))]

/-- One record's cells, zipped back with the header and re-typed, are the
canonical round-trip record. -/
theorem record_roundtrip (ks : List String) (rec : List (String × Json))
    (hnd : (rec.map Prod.fst).Nodup) :
    ((headerCells ks).zip (rowCells ks (flattenItem ks (.obj rec)))).map
        (fun p => (String.mk p.1, inferCell true p.2))
      = canonRecord ks rec := by
  unfold headerCells rowCells canonRecord
  rw [List.zip_map']
  rw [List.map_map]
  apply List.map_congr_left
  intro k hk
  show (String.mk k.data,
        inferCell true (renderCellValue ((getKey (flattenItem ks (.obj rec)) k).getD (.str ""))))
      = (k, canonCell (getKey rec k))
  cases hv : getKey rec k with
  | some v =>
    have hflat : getKey (flattenItem ks (.obj rec)) k = some (cellJson v) := by
      rw [flattenItem_entries ks rec (.obj rec) rfl]
      exact getKey_foldl_setKey_of_mem cellJson rec k v hnd (getKey_eq_some_mem hv) _
    rw [hflat]
    rfl
  | none =>
    have hne : ∀ q ∈ rec, q.1 ≠ k := by
      intro q hq hqk
      have := List.any_eq_false.1 (hasKey_eq_false_iff.2 hv) q hq
      simp [hqk] at this
    have hflat : getKey (flattenItem ks (.obj rec)) k = some (.str "") := by
      rw [flattenItem_entries ks rec (.obj rec) rfl]
      rw [getKey_foldl_setKey_of_not_mem cellJson rec k hne]
      exact getKey_init_mem hk
    rw [hflat]
    rfl

/-- C2 (amended): for a record set of scalar-celled, duplicate-free records
whose column union is nonempty, and in which neither the header row nor any
record's row renders as a single empty cell (an empty line), the CSV round
trip returns one record per input record with the union columns in first-seen
order, each cell the dynamic-typing re-inference of its rendered text —
equality up to column ordering and type round-trip, - and missing keys
coming back as empty strings. -/
theorem csv_json_roundtrip (R : List (List (String × Json)))
    (hnodup : ∀ rec ∈ R, (rec.map Prod.fst).Nodup)
    (hscalar : ∀ rec ∈ R, ∀ p ∈ rec, isScalar p.2 = true)
    (hks : R ≠ [] → allKeysOf (R.map Json.obj) ≠ [])
    (hhead : headerCells (allKeysOf (R.map Json.obj)) ≠ [[]])
    (hrows : ∀ rec ∈ R,
      rowCells (allKeysOf (R.map Json.obj))
        (flattenItem (allKeysOf (R.map Json.obj)) (.obj rec)) ≠ [[]]) :
    csvRoundTrip (.arr (R.map Json.obj))
      = .ok (R.map (fun rec =>
          Json.obj (canonRecord (allKeysOf (R.map Json.obj)) rec))) := by
  by_cases hR : R = []
  · subst hR
    rfl
  · have hmapne : R.map Json.obj ≠ [] := fun hc => hR (List.map_eq_nil_iff.1 hc)
    have hksne := hks hR
    show csvToJson true (String.mk (jsonToCsvCore (R.map Json.obj))) = _
    rw [jsonToCsvCore_ne _ hmapne]
    rw [csvToJson_renderDoc _
      (by
        intro r hr
        rcases List.mem_cons.1 hr with heq | hmem
        · subst heq
          intro hc
          exact hksne (List.map_eq_nil_iff.1 hc)
        · rcases List.mem_map.1 hmem with ⟨it, _, hit⟩
          subst hit
          intro hc
          exact hksne (List.map_eq_nil_iff.1 hc))
      (by
        intro r hr
        rcases List.mem_cons.1 hr with heq | hmem
        · subst heq
          exact hhead
        · rw [List.map_map] at hmem
          rcases List.mem_map.1 hmem with ⟨rec, hrec, hit⟩
          subst hit
          exact hrows rec hrec)]
    show Except.ok (((R.map Json.obj).map (fun it =>
          rowCells (allKeysOf (R.map Json.obj))
            (flattenItem (allKeysOf (R.map Json.obj)) it))).map (fun row =>
          Json.obj (((headerCells (allKeysOf (R.map Json.obj))).zip row).map
            (fun p => (String.mk p.1, inferCell true p.2))))) = _
    rw [List.map_map, List.map_map]
    refine congrArg Except.ok (List.map_congr_left ?_)
    intro rec hrec
    show Json.obj (((headerCells (allKeysOf (R.map Json.obj))).zip
          (rowCells (allKeysOf (R.map Json.obj))
            (flattenItem (allKeysOf (R.map Json.obj)) (.obj rec)))).map
          (fun p => (String.mk p.1, inferCell true p.2)))
        = Json.obj (canonRecord (allKeysOf (R.map Json.obj)) rec)
    rw [record_roundtrip _ rec (hnodup rec hrec)]

/-- Counterexample to C2 as stated: a two-record scalar record set whose
second record's sole cell renders empty loses that record in the round trip —
its row is the empty line, which the decoder skips — so no column reordering
or type coercion can recover the input. -/
theorem csv_roundtrip_counterexample :
    csvRoundTrip (.arr [.obj [("a", Json.str "x")], .obj [("a", Json.str "")]])
      = .ok [Json.obj [("a", Json.str "x")]]
    ∧ [Json.obj [("a", Json.str "x")], Json.obj [("a", Json.str "")]].length = 2
    ∧ [Json.obj [("a", Json.str "x")]].length = 1 :=
  ⟨rfl, rfl, rfl⟩

/-- Witness for the amended C2: a concrete two-record scalar record set with a
missing key round-trips to its canonical form. -/
theorem csv_json_roundtrip_witness :
    (∀ rec ∈ [[("a", Json.str "x")], [("b", Json.num 7)]],
      (rec.map Prod.fst).Nodup)
    ∧ csvRoundTrip (.arr ([[("a", Json.str "x")], [("b", Json.num 7)]].map Json.obj))
      = .ok ([[("a", Json.str "x")], [("b", Json.num 7)]].map (fun rec =>
          Json.obj (canonRecord
            (allKeysOf ([[("a", Json.str "x")], [("b", Json.num 7)]].map Json.obj)) rec))) :=
  ⟨by decide,
    csv_json_roundtrip [[("a", Json.str "x")], [("b", Json.num 7)]]
      (by decide) (by decide) (fun _ => by decide) (by decide) (by decide)⟩

/-! ## C3: the structural flattener -/

/-- C3: the flattener computes the column union over the whole array first and
every output record carries exactly the union columns (in union order); a cell
whose value is a nested object or array is serialized to its JSON text;
columns the element does not carry are the empty string; and the spec's
two-record example evaluates exactly as stated. -/
theorem jsonToCsv_flatten_spec :
    (∀ (items : List Json) (it : Json), it ∈ items →
      (flattenItem (allKeysOf items) it).map Prod.fst = allKeysOf items)
  ∧ (∀ (ks : List String) (fs : List (String × Json)) (k : String) (v : Json),
      (fs.map Prod.fst).Nodup → (k, v) ∈ fs →
        getKey (flattenItem ks (.obj fs)) k = some (cellJson v))
  ∧ (∀ v : Json, isScalar v = false → cellJson v = .str (String.mk (jsonStringify v)))
  ∧ (∀ (ks : List String) (fs : List (String × Json)) (k : String),
      k ∈ ks → getKey fs k = none →
        getKey (flattenItem ks (.obj fs)) k = some (.str ""))
  ∧ (let items := [Json.obj [("a", .num 1), ("nested", .obj [("x", .num 1)])],
                   Json.obj [("b", .num 2)]]
     items.map (flattenItem (allKeysOf items))
      = [[("a", Json.num 1),
          ("nested", Json.str (String.mk ['\x7b', '"', 'x', '"', ':', '1', '\x7d'])),
          ("b", Json.str "")],
         [("a", Json.str ""), ("nested", Json.str ""), ("b", Json.num 2)]]) := by
  refine ⟨?_, ?_, ?_, ?_, rfl⟩
  · intro items it hit
    cases hent : objEntries it with
    | none => rw [flattenItem_none _ _ hent, keys_init]
    | some fs =>
      rw [flattenItem_entries _ fs it hent]
      rw [foldl_setKey_keys cellJson fs _ (fun p hp => by
        rw [hasKey_iff_mem, keys_init]
        exact mem_allKeysOf hit hent hp)]
      exact keys_init _
  · intro ks fs k v hnd hmem
    rw [flattenItem_entries ks fs (.obj fs) rfl]
    exact getKey_foldl_setKey_of_mem cellJson fs k v hnd hmem _
  · intro v hv
    cases v with
    | obj fs => rfl
    | arr xs => rfl
    | null => simp [isScalar] at hv
    | bool b => simp [isScalar] at hv
    | num n => simp [isScalar] at hv
    | str s => simp [isScalar] at hv
  · intro ks fs k hk hnone
    rw [flattenItem_entries ks fs (.obj fs) rfl]
    have hne : ∀ q ∈ fs, q.1 ≠ k := by
      intro q hq hqk
      have := List.any_eq_false.1 (hasKey_eq_false_iff.2 hnone) q hq
      simp [hqk] at this
    rw [getKey_foldl_setKey_of_not_mem cellJson fs k hne]
    exact getKey_init_mem hk

/-- Witness for C3: a nested cell is stored as its JSON text in the flattened
record. -/
theorem jsonToCsv_flatten_spec_witness :
    (([("a", Json.obj [("x", Json.num 1)])].map Prod.fst).Nodup)
    ∧ getKey (flattenItem ["a", "b"] (.obj [("a", Json.obj [("x", Json.num 1)])])) "a"
        = some (cellJson (Json.obj [("x", Json.num 1)])) :=
  ⟨by decide,
    jsonToCsv_flatten_spec.2.1 ["a", "b"] [("a", Json.obj [("x", Json.num 1)])]
      "a" (Json.obj [("x", Json.num 1)]) (by decide) (List.mem_singleton.2 rfl)⟩

/-! ## C6: an invalid rule document fails fast -/

/-- C6: when the parsed rule document lacks a `transformations` array,
`applyYamlTransformations` fails with a message naming the missing structure,
for every evaluation environment and every input datum alike — so before any
rule is dispatched or any record processed, and without transforming the
data. -/
theorem invalid_transformations_fails_fast (E : EvalEnv) (d : Json) :
    applyYamlTransformations E .invalid d =
      .error ("Failed to apply YAML transformations: " ++
        "Invalid YAML transformation file: missing or invalid transformations array") := rfl

/-! ## C10: variant precedence in rule dispatch -/

/-- C10: dispatch applies exactly one variant, `condition` over `mapping` over
`calculate`, regardless of which lower-precedence keys are also present, and a
rule carrying none of the three keys leaves the data unchanged. -/
theorem dispatchRule_precedence :
    (∀ (E : EvalEnv) (r : Rule) (d : Json) (c : String),
      r.condition = some c → dispatchRule E r d = applyFilterRule E d c)
  ∧ (∀ (E : EvalEnv) (r : Rule) (d : Json) (m : List (String × String)),
      r.condition = none → r.mapping = some m →
        dispatchRule E r d = .ok (applyMappingRule d m))
  ∧ (∀ (E : EvalEnv) (r : Rule) (d : Json) (ce : String × String),
      r.condition = none → r.mapping = none → r.calculate = some ce →
        dispatchRule E r d = applyCalculationRule E d ce.1 ce.2)
  ∧ (∀ (E : EvalEnv) (r : Rule) (d : Json),
      r.condition = none → r.mapping = none → r.calculate = none →
        dispatchRule E r d = .ok d) := by
  refine ⟨?_, ?_, ?_, ?_⟩
  · intro E r d c hc
    unfold dispatchRule
    rw [hc]
  · intro E r d m hc hm
    unfold dispatchRule
    rw [hc, hm]
  · intro E r d ce hc hm hce
    unfold dispatchRule
    rw [hc, hm, hce]
  · intro E r d hc hm hce
    unfold dispatchRule
    rw [hc, hm, hce]

/-- Witness for C10: a rule that carries both a `condition` and a `mapping`
key is dispatched as a filter. -/
theorem dispatchRule_precedence_witness :
    Rule.condition { name := "both", condition := some "ok", mapping := some [("b", "a")] }
        = some "ok"
    ∧ dispatchRule evalAllOk
        { name := "both", condition := some "ok", mapping := some [("b", "a")] }
        (.arr [])
      = applyFilterRule evalAllOk (.arr []) "ok" :=
  ⟨rfl, dispatchRule_precedence.1 evalAllOk _ (.arr []) "ok" rfl⟩

/-! ## C7: the mapping rule -/

/-- C7: on an array the mapping rule transforms every record independently and
never raises; no key is ever deleted; for a single-entry mapping, a record
holding the source field gains the target field with the source's value and
keeps the source, and a record lacking the source field is returned
unchanged (the target is simply omitted); the spec's example holds. -/
theorem applyMappingRule_spec :
    (∀ (mapping : List (String × String)) (items : List Json),
      applyMappingRule (.arr items) mapping
        = .arr (items.map (fun it => .obj (mapFields mapping (jsSpread it)))))
  ∧ (∀ (mapping : List (String × String)) (fs : List (String × Json)) (k : String),
      hasKey fs k = true → hasKey (mapFields mapping fs) k = true)
  ∧ (∀ (newF oldF : String) (fs : List (String × Json)) (v : Json),
      getKey fs oldF = some v →
        getKey (mapFields [(newF, oldF)] fs) newF = some v ∧
        getKey (mapFields [(newF, oldF)] fs) oldF = some v)
  ∧ (∀ (newF oldF : String) (fs : List (String × Json)),
      getKey fs oldF = none → mapFields [(newF, oldF)] fs = fs)
  ∧ applyMappingRule (.arr [.obj [("name", .str "Alice")]]) [("fullName", "name")]
      = .arr [.obj [("name", .str "Alice"), ("fullName", .str "Alice")]] := by
  refine ⟨fun _ _ => rfl, ?_, ?_, ?_, rfl⟩
  · intro mapping
    induction mapping with
    | nil => intro fs k h; exact h
    | cons m ms ih =>
      intro fs k h
      unfold mapFields at ih ⊢
      rw [List.foldl_cons]
      apply ih
      cases hget : getKey fs m.2 with
      | none => simpa [hget] using h
      | some v =>
        simp only [hget]
        exact hasKey_setKey h
  · intro newF oldF fs v hget
    have hstep : mapFields [(newF, oldF)] fs = setKey fs newF v := by
      unfold mapFields
      rw [List.foldl_cons]
      simp only [hget]
      rfl
    rw [hstep]
    constructor
    · exact getKey_setKey_self fs newF v
    · by_cases he : oldF = newF
      · rw [he]; exact getKey_setKey_self fs newF v
      · rw [getKey_setKey_ne fs newF oldF v he]
        exact hget
  · intro newF oldF fs hget
    unfold mapFields
    rw [List.foldl_cons]
    simp only [hget]
    rfl

/-- Witness for C7: the spec example, through the single-entry conjunct. -/
theorem applyMappingRule_spec_witness :
    getKey [("name", Json.str "Alice")] "name" = some (.str "Alice")
    ∧ getKey (mapFields [("fullName", "name")] [("name", Json.str "Alice")]) "fullName"
        = some (.str "Alice")
    ∧ getKey (mapFields [("fullName", "name")] [("name", Json.str "Alice")]) "name"
        = some (.str "Alice") :=
  ⟨rfl,
    (applyMappingRule_spec.2.2.1 "fullName" "name" [("name", Json.str "Alice")]
      (.str "Alice") rfl).1,
    (applyMappingRule_spec.2.2.1 "fullName" "name" [("name", Json.str "Alice")]
      (.str "Alice") rfl).2⟩

/-! ## C8: the filter rule -/

theorem applyFilterRule_arr (E : EvalEnv) (items : List Json) (c : String) :
    applyFilterRule E (.arr items) c =
      match E c with
      | .error e => .error ("Failed to apply filter rule: " ++ e)
      | .ok f =>
        match filterEval f items with
        | .error e => .error ("Failed to apply filter rule: " ++ e)
        | .ok kept => .ok (.arr kept) := rfl

theorem filterEval_ok (f : JsFun) (items : List Json)
    (h : ∀ x ∈ items, (f x).isOk = true) :
    filterEval f items = .ok (items.filter (keepCheck f)) := by
  induction items with
  | nil => rfl
  | cons x xs ih =>
    have hx := h x (List.mem_cons_self x xs)
    cases hfx : f x with
    | error e => rw [hfx] at hx; simp [Except.isOk, Except.toBool] at hx
    | ok v =>
      unfold filterEval
      rw [hfx, ih (fun y hy => h y (List.mem_cons_of_mem x hy))]
      rw [List.filter_cons]
      have hk : keepCheck f x = truthy v := by unfold keepCheck; rw [hfx]
      rw [hk]

/-- C8: on an array whose records all evaluate without throwing, the filter
rule keeps exactly the records whose condition value is truthy, in order; on
any non-array input it returns the data unchanged for every environment (the
condition is not even compiled); and the spec's `data.active === true`
example holds. -/
theorem applyFilterRule_spec :
    (∀ (E : EvalEnv) (c : String) (f : JsFun) (items : List Json),
      E c = .ok f → (∀ x ∈ items, (f x).isOk = true) →
        applyFilterRule E (.arr items) c = .ok (.arr (items.filter (keepCheck f))))
  ∧ (∀ (E : EvalEnv) (c : String) (d : Json),
      jsIsArray d = false → applyFilterRule E d c = .ok d)
  ∧ applyFilterRule evalActiveEnv
      (.arr [.obj [("id", .num 1), ("active", .bool true)],
             .obj [("id", .num 2), ("active", .bool false)]])
      "data.active === true"
    = .ok (.arr [.obj [("id", .num 1), ("active", .bool true)]]) := by
  refine ⟨?_, ?_, rfl⟩
  · intro E c f items hE hok
    rw [applyFilterRule_arr, hE]
    show (match filterEval f items with
          | .error e => Except.error ("Failed to apply filter rule: " ++ e)
          | .ok kept => .ok (.arr kept))
        = Except.ok (Json.arr (items.filter (keepCheck f)))
    rw [filterEval_ok f items hok]
  · intro E c d hd
    cases d with
    | arr xs => simp [jsIsArray] at hd
    | null => rfl
    | bool b => rfl
    | num n => rfl
    | str s => rfl
    | obj fs => rfl

/-- Witness for C8: the example record set with the concrete environment. -/
theorem applyFilterRule_spec_witness :
    evalActiveEnv "data.active === true" = .ok jsActiveFn
    ∧ applyFilterRule evalActiveEnv
        (.arr [.obj [("id", .num 1), ("active", .bool true)],
               .obj [("id", .num 2), ("active", .bool false)]])
        "data.active === true"
      = .ok (.arr ([.obj [("id", .num 1), ("active", .bool true)],
                    .obj [("id", .num 2), ("active", .bool false)]].filter
                   (keepCheck jsActiveFn))) :=
  ⟨rfl,
    applyFilterRule_spec.1 evalActiveEnv "data.active === true" jsActiveFn
      [.obj [("id", .num 1), ("active", .bool true)],
       .obj [("id", .num 2), ("active", .bool false)]] rfl
      (by intro x hx; fin_cases hx <;> rfl)⟩

/-! ## C1: file order, cumulative results, disabled rules skipped unevaluated -/

theorem applyFilterRule_congr (E1 E2 : EvalEnv) (d : Json) (c : String)
    (h : E1 c = E2 c) : applyFilterRule E1 d c = applyFilterRule E2 d c := by
  cases d with
  | arr xs => unfold applyFilterRule; rw [h]
  | null => rfl
  | bool b => rfl
  | num n => rfl
  | str s => rfl
  | obj fs => rfl

theorem applyCalculationRule_congr (E1 E2 : EvalEnv) (d : Json) (fld ex : String)
    (h : E1 ex = E2 ex) :
    applyCalculationRule E1 d fld ex = applyCalculationRule E2 d fld ex := by
  unfold applyCalculationRule
  rw [h]

theorem dispatchRule_congr (E1 E2 : EvalEnv) (r : Rule) (d : Json)
    (h : ∀ s ∈ ruleExprs r, E1 s = E2 s) :
    dispatchRule E1 r d = dispatchRule E2 r d := by
  unfold dispatchRule
  cases hc : r.condition with
  | some c =>
    apply applyFilterRule_congr
    apply h
    unfold ruleExprs
    rw [hc]
    exact List.mem_append_left _ (List.mem_singleton.2 rfl)
  | none =>
    cases hm : r.mapping with
    | some m => rfl
    | none =>
      cases hce : r.calculate with
      | some ce =>
        apply applyCalculationRule_congr
        apply h
        unfold ruleExprs
        rw [hc, hce]
        exact List.mem_append_right _ (List.mem_singleton.2 rfl)
      | none => rfl

theorem applyRules_cons (E : EvalEnv) (r : Rule) (rs : List Rule) (d : Json) :
    applyRules E (r :: rs) d =
      if (r.enabled == some false) = true then applyRules E rs d
      else
        match dispatchRule E r d with
        | .ok d2 => applyRules E rs d2
        | .error e => .error e := rfl

theorem applyYamlTransformations_valid (E : EvalEnv) (rules : List Rule) (d : Json) :
    applyYamlTransformations E (.valid rules) d =
      match applyRules E rules d with
      | .ok r => .ok r
      | .error e => .error ("Failed to apply YAML transformations: " ++ e) := rfl

theorem applyRules_filter_congr (E1 E2 : EvalEnv) (rules : List Rule)
    (h : ∀ r ∈ rules, (r.enabled == some false) = false → ∀ s ∈ ruleExprs r, E1 s = E2 s) :
    ∀ d, applyRules E1 rules d
      = applyRules E2 (rules.filter (fun r => !(r.enabled == some false))) d := by
  induction rules with
  | nil => intro d; rfl
  | cons r rs ih =>
    intro d
    rw [List.filter_cons]
    by_cases hdis : (r.enabled == some false) = true
    · rw [hdis]
      rw [if_neg (by decide : ¬((!true : Bool) = true))]
      rw [applyRules_cons, if_pos hdis]
      exact ih (fun q hq => h q (List.mem_cons_of_mem r hq)) d
    · have hdis' : (r.enabled == some false) = false := by simpa using hdis
      rw [hdis']
      rw [if_pos (by decide : ((!false : Bool) = true))]
      rw [applyRules_cons, applyRules_cons, if_neg hdis, if_neg hdis]
      rw [dispatchRule_congr E1 E2 r d (h r (List.mem_cons_self r rs) hdis')]
      cases dispatchRule E2 r d with
      | ok d2 => exact ih (fun q hq => h q (List.mem_cons_of_mem r hq)) d2
      | error e => rfl

/-- C1: over any rule list, the engine folds the enabled rules in file order —
the run is equal to the run over the list with the disabled rules removed —
and the result is the same under any two evaluation environments that agree
on the enabled rules' expressions, so a disabled rule's expression is never
compiled or evaluated, however invalid.  The cons unfolding shows each enabled
rule receiving the cumulative output of the prior ones. -/
theorem applyYamlTransformations_skips_disabled :
    (∀ (E1 E2 : EvalEnv) (rules : List Rule) (d : Json),
      (∀ r ∈ rules, (r.enabled == some false) = false → ∀ s ∈ ruleExprs r, E1 s = E2 s) →
        applyYamlTransformations E1 (.valid rules) d
          = applyYamlTransformations E2
              (.valid (rules.filter (fun r => !(r.enabled == some false)))) d)
  ∧ (∀ (E : EvalEnv) (r : Rule) (rs : List Rule) (d : Json),
      (r.enabled == some false) = false →
        applyYamlTransformations E (.valid (r :: rs)) d
          = match dispatchRule E r d with
            | .ok d2 => applyYamlTransformations E (.valid rs) d2
            | .error e => .error ("Failed to apply YAML transformations: " ++ e)) := by
  constructor
  · intro E1 E2 rules d h
    rw [applyYamlTransformations_valid, applyYamlTransformations_valid,
      applyRules_filter_congr E1 E2 rules h d]
  · intro E r rs d hen
    rw [applyYamlTransformations_valid, applyRules_cons, if_neg (by simp [hen])]
    cases dispatchRule E r d with
    | ok d2 => rfl
    | error e => rfl

/-- Witness for C1: a disabled rule whose condition does not even compile in
the first environment is skipped, and the run agrees with the second
environment on the rule list with the disabled rule removed. -/
theorem applyYamlTransformations_skips_disabled_witness :
    (∀ r ∈ [{ name := "off", enabled := some false, condition := some "bad" : Rule}],
      (r.enabled == some false) = false → ∀ s ∈ ruleExprs r, evalBadDisabled s = evalAllOk s)
    ∧ applyYamlTransformations evalBadDisabled
        (.valid [{ name := "off", enabled := some false, condition := some "bad" }])
        (.arr [.obj [("a", .num 1)]])
      = applyYamlTransformations evalAllOk
          (.valid ([{ name := "off", enabled := some false, condition := some "bad" : Rule}].filter
            (fun r => !(r.enabled == some false))))
          (.arr [.obj [("a", .num 1)]]) := by
  have hvac : ∀ r ∈ [{ name := "off", enabled := some false, condition := some "bad" : Rule}],
      (r.enabled == some false) = false → ∀ s ∈ ruleExprs r, evalBadDisabled s = evalAllOk s := by
    intro r hr hfalse
    rw [List.mem_singleton] at hr
    subst hr
    exact absurd hfalse (by decide)
  exact ⟨hvac,
    applyYamlTransformations_skips_disabled.1 evalBadDisabled evalAllOk
      [{ name := "off", enabled := some false, condition := some "bad" }]
      (.arr [.obj [("a", .num 1)]]) hvac⟩

/-! ## C5: a thrown evaluation error aborts the whole call, wrapped -/

theorem filterEval_error (f : JsFun) (pre post : List Json) (x : Json) (msg : String)
    (hpre : ∀ y ∈ pre, (f y).isOk = true) (hx : f x = .error msg) :
    filterEval f (pre ++ x :: post) = .error msg := by
  induction pre with
  | nil =>
    rw [List.nil_append]
    unfold filterEval
    rw [hx]
  | cons y ys ih =>
    have hy := hpre y (List.mem_cons_self y ys)
    cases hfy : f y with
    | error e => rw [hfy] at hy; simp [Except.isOk, Except.toBool] at hy
    | ok v =>
      rw [List.cons_append]
      unfold filterEval
      rw [hfy, ih (fun z hz => hpre z (List.mem_cons_of_mem y hz))]

theorem calcEval_error (f : JsFun) (fld : String) (pre post : List Json) (x : Json)
    (msg : String)
    (hpre : ∀ y ∈ pre, (f (.obj (jsSpread y))).isOk = true)
    (hx : f (.obj (jsSpread x)) = .error msg) :
    calcEval f fld (pre ++ x :: post) = .error msg := by
  induction pre with
  | nil =>
    rw [List.nil_append]
    unfold calcEval
    rw [hx]
  | cons y ys ih =>
    have hy := hpre y (List.mem_cons_self y ys)
    cases hfy : f (.obj (jsSpread y)) with
    | error e => rw [hfy] at hy; simp [Except.isOk, Except.toBool] at hy
    | ok v =>
      rw [List.cons_append]
      unfold calcEval
      rw [hfy, ih (fun z hz => hpre z (List.mem_cons_of_mem y hz))]

/-- C5: if the compiled filter condition or calculated-field expression throws
on some record (all records before it evaluating cleanly), the rule fails with
the wrapped `Failed to apply <rule-kind> rule:` message, and the whole
`applyYamlTransformations` call — whatever rules follow — aborts with that
message inside the outer wrapper; no partial per-record result is returned. -/
theorem rule_eval_error_aborts :
    (∀ (E : EvalEnv) (c : String) (f : JsFun) (pre post : List Json) (x : Json)
        (msg : String),
      E c = .ok f → (∀ y ∈ pre, (f y).isOk = true) → f x = .error msg →
        applyFilterRule E (.arr (pre ++ x :: post)) c
          = .error ("Failed to apply filter rule: " ++ msg)
        ∧ ∀ (nm : String) (rs : List Rule),
            applyYamlTransformations E
              (.valid ({ name := nm, condition := some c } :: rs))
              (.arr (pre ++ x :: post))
            = .error ("Failed to apply YAML transformations: " ++
                ("Failed to apply filter rule: " ++ msg)))
  ∧ (∀ (E : EvalEnv) (fld ex : String) (f : JsFun) (pre post : List Json) (x : Json)
        (msg : String),
      E ex = .ok f → (∀ y ∈ pre, (f (.obj (jsSpread y))).isOk = true) →
        f (.obj (jsSpread x)) = .error msg →
        applyCalculationRule E (.arr (pre ++ x :: post)) fld ex
          = .error ("Failed to apply calculation rule: " ++ msg)
        ∧ ∀ (nm : String) (rs : List Rule),
            applyYamlTransformations E
              (.valid ({ name := nm, calculate := some (fld, ex) } :: rs))
              (.arr (pre ++ x :: post))
            = .error ("Failed to apply YAML transformations: " ++
                ("Failed to apply calculation rule: " ++ msg))) := by
  constructor
  · intro E c f pre post x msg hE hpre hx
    have hrule : applyFilterRule E (.arr (pre ++ x :: post)) c
        = .error ("Failed to apply filter rule: " ++ msg) := by
      rw [applyFilterRule_arr, hE]
      show (match filterEval f (pre ++ x :: post) with
            | Except.error e => Except.error ("Failed to apply filter rule: " ++ e)
            | Except.ok kept => Except.ok (Json.arr kept))
          = Except.error ("Failed to apply filter rule: " ++ msg)
      rw [filterEval_error f pre post x msg hpre hx]
    refine ⟨hrule, ?_⟩
    intro nm rs
    rw [applyYamlTransformations_valid, applyRules_cons]
    rw [if_neg (show
      ¬(({ name := nm, condition := some c : Rule }.enabled == some false) = true)
      from fun h => Bool.noConfusion h)]
    rw [show dispatchRule E { name := nm, condition := some c } (.arr (pre ++ x :: post))
        = applyFilterRule E (.arr (pre ++ x :: post)) c from rfl]
    rw [hrule]
  · intro E fld ex f pre post x msg hE hpre hx
    have hrule : applyCalculationRule E (.arr (pre ++ x :: post)) fld ex
        = .error ("Failed to apply calculation rule: " ++ msg) := by
      show (match E ex with
            | Except.error e => Except.error ("Failed to apply calculation rule: " ++ e)
            | Except.ok f =>
              match Json.arr (pre ++ x :: post) with
              | Json.arr items =>
                match calcEval f fld items with
                | Except.error e => Except.error ("Failed to apply calculation rule: " ++ e)
                | Except.ok out => Except.ok (Json.arr out)
              | Json.obj fs =>
                match f (Json.obj fs) with
                | Except.error e => Except.error ("Failed to apply calculation rule: " ++ e)
                | Except.ok v => Except.ok (Json.obj (setKey fs fld v))
              | d => Except.ok d)
          = Except.error ("Failed to apply calculation rule: " ++ msg)
      rw [hE]
      show (match calcEval f fld (pre ++ x :: post) with
            | Except.error e => Except.error ("Failed to apply calculation rule: " ++ e)
            | Except.ok out => Except.ok (Json.arr out))
          = Except.error ("Failed to apply calculation rule: " ++ msg)
      rw [calcEval_error f fld pre post x msg hpre hx]
    refine ⟨hrule, ?_⟩
    intro nm rs
    rw [applyYamlTransformations_valid, applyRules_cons]
    rw [if_neg (show
      ¬(({ name := nm, calculate := some (fld, ex) : Rule }.enabled == some false) = true)
      from fun h => Bool.noConfusion h)]
    rw [show dispatchRule E { name := nm, calculate := some (fld, ex) }
          (.arr (pre ++ x :: post))
        = applyCalculationRule E (.arr (pre ++ x :: post)) fld ex from rfl]
    rw [hrule]

/-- Witness for C5: an environment whose compiled callable throws on the very
first record aborts a one-filter-rule run with the wrapped message. -/
theorem rule_eval_error_aborts_witness :
    evalBoomEnv "data.x" = .ok jsBoom
    ∧ jsBoom (.obj [("a", .num 1)]) = .error "boom"
    ∧ applyYamlTransformations evalBoomEnv
        (.valid [{ name := "flt", condition := some "data.x" }])
        (.arr ([] ++ .obj [("a", .num 1)] :: []))
      = .error ("Failed to apply YAML transformations: " ++
          ("Failed to apply filter rule: " ++ "boom")) :=
  ⟨rfl, rfl,
    ((rule_eval_error_aborts.1 evalBoomEnv "data.x" jsBoom [] []
        (.obj [("a", .num 1)]) "boom" rfl
        (by intro y hy; cases hy) rfl).2 "flt" [])⟩

/-! ## C9: batch units already in target format, or colliding, are skipped -/

/-- C9: a unit whose source type equals the target format, or whose derived
output path exists while overwriting is off, is classified skipped; the
classification is independent of the conversion function (no conversion runs,
nothing is written); and in the tally fold such a unit increments exactly the
skipped counter. -/
theorem batch_skip_spec :
    (∀ (convert convert2 : FileInfo → Except String Unit) (pathExists : String → Bool)
        (opts : ConversionOptions) (f : FileInfo),
      (isSameFormat f.fileType opts.targetFormat = true ∨
        (pathExists (outputPathFor opts f) = true ∧ opts.overwriteFiles = false)) →
        unitOutcome convert pathExists opts f = .skipped ∧
        unitOutcome convert2 pathExists opts f = unitOutcome convert pathExists opts f)
  ∧ (∀ (convert : FileInfo → Except String Unit) (pathExists : String → Bool)
        (opts : ConversionOptions) (files : List FileInfo) (f : FileInfo),
      (isSameFormat f.fileType opts.targetFormat = true ∨
        (pathExists (outputPathFor opts f) = true ∧ opts.overwriteFiles = false)) →
        runBatch convert pathExists opts (files ++ [f])
          = { runBatch convert pathExists opts files with
              skipped := (runBatch convert pathExists opts files).skipped + 1 }) := by
  have hskip : ∀ (convert : FileInfo → Except String Unit) (pathExists : String → Bool)
      (opts : ConversionOptions) (f : FileInfo),
      (isSameFormat f.fileType opts.targetFormat = true ∨
        (pathExists (outputPathFor opts f) = true ∧ opts.overwriteFiles = false)) →
      unitOutcome convert pathExists opts f = .skipped := by
    intro convert pathExists opts f h
    unfold unitOutcome
    rcases h with hsame | ⟨hex, how⟩
    · rw [if_pos hsame]
    · by_cases hsame : isSameFormat f.fileType opts.targetFormat = true
      · rw [if_pos hsame]
      · rw [if_neg hsame, if_pos (by rw [hex, how]; rfl)]
  constructor
  · intro convert convert2 pathExists opts f h
    exact ⟨hskip convert pathExists opts f h,
      (hskip convert2 pathExists opts f h).trans (hskip convert pathExists opts f h).symm⟩
  · intro convert pathExists opts files f h
    unfold runBatch
    rw [List.foldl_append, List.foldl_cons, List.foldl_nil]
    rw [hskip convert pathExists opts f h]
    rfl

/-- Witness for C9: converting a CSV file while the target format is already
CSV is skipped. -/
theorem batch_skip_spec_witness :
    (isSameFormat FileKind.csv FileKind.csv = true ∨
      ((fun _ => false) (outputPathFor ⟨.csv, false⟩ ⟨"a.csv", .csv⟩) = true ∧
        ConversionOptions.overwriteFiles ⟨.csv, false⟩ = false))
    ∧ unitOutcome (fun _ => .ok ()) (fun _ => false) ⟨.csv, false⟩ ⟨"a.csv", .csv⟩
        = .skipped :=
  ⟨Or.inl rfl,
    (batch_skip_spec.1 (fun _ => .ok ()) (fun _ => .ok ()) (fun _ => false)
      ⟨.csv, false⟩ ⟨"a.csv", .csv⟩ (Or.inl rfl)).1⟩

/-! ## C4: the JSON-to-Excel single-object lift -/

/-- C4 (code bug): the recursive single-object call of `jsonToExcel` passes
`JSON.stringify([jsonData])` where a *file path* is expected, so a JSON file
holding a single object is not lifted and flattened — the call fails with a
doubly wrapped file-read error whose "path" is the serialized array text. -/
theorem jsonToExcel_single_object_read_error :
    readSingleObject "data.json" = .ok (.obj [("a", .num 1)])
    ∧ jsonToExcelGo readSingleObject 2 "data.json"
      = .error ("Failed to convert JSON to Excel: Failed to convert JSON to Excel: " ++
          "ENOENT: no such file or directory, open [\x7b\"a\":1\x7d]") := by
  constructor
  · rfl
  · rfl

end DataMorph
